import Mathlib

/-!
Verification of the lushus-jwt authorization core against its specification.

Rust strings are embedded as lists of characters (`Str`), `Option`/`Result`
as `Option`/`Except`, and the `HashMap` of resources as a lookup function.
Each definition is a direct translation of the named Rust item; doc comments
record the source file. Where a file of the repository is absent from the
sources (the parent module of `claims/`, the serde plumbing
`scope_deserializer.rs` / `scope_serializer.rs`), the missing part is
modelled from the specification and marked as such.
-/

namespace LushusJwt

/-- Rust string contents, embedded as a list of characters. -/
abbrev Str : Type := List Char

/-- Translation of `struct Scope { action: String, resource: String }`
(src/src/scope.rs). -/
structure Scope where
  action : Str
  resource : Str

deriving instance DecidableEq for Scope

/-- Translation of `enum ScopeError` (src/src/scope.rs); only the
`InvalidScopeFormat` variant is produced by the visitor itself. -/
inductive ScopeError where
  | InvalidScopeFormat (text : Str)

deriving instance DecidableEq for ScopeError

/-- Translation of `ScopeVisitor::visit_str` (src/src/scope.rs, lines 63-80):
split the input on every colon, fail when fewer than two segments result or
the first or second segment is empty, and otherwise build the scope from the
first two segments. `List.splitOn` matches Rust `str::split` on a
single-character pattern. -/
def Scope.visitStr (v : Str) : Except ScopeError Scope :=
  let parts := v.splitOn ':'
  if parts.length < 2 ∨ (parts.getD 0 []).length < 1 ∨ (parts.getD 1 []).length < 1 then
    .error (.InvalidScopeFormat v)
  else
    .ok ⟨parts.getD 0 [], parts.getD 1 []⟩

/-- Translation of `impl Serialize for Scope` (src/src/scope.rs, lines 88-96):
`format!("{}:{}", self.action, self.resource)`. -/
def Scope.serialize (s : Scope) : Str :=
  s.action ++ [':'] ++ s.resource

/-- Modelled from the spec: `FromStr for Scope` routes through
`serde_scope::from_str` and the custom `ScopeDeserializer`, whose file
`scope_deserializer.rs` is absent from the sources. Per spec section 4.1 the
single-scope decoder applies the colon grammar to the whole input, which is
exactly `ScopeVisitor::visit_str` (present in src/src/scope.rs). -/
def Scope.fromStr (s : Str) : Except ScopeError Scope :=
  Scope.visitStr s

/-- Translation of `space_separated_serialize` (src/src/lib.rs, lines 57-70):
render each scope with its `Display`/`Serialize` form and join with single
spaces. -/
def space_separated_serialize (scopes : List Scope) : Str :=
  List.intercalate [' '] (scopes.map Scope.serialize)

/-- Translation of `space_separated_deserialize` (src/src/lib.rs, lines
23-55): split on single spaces, parse each segment with `FromStr`, and stop
at the first failing segment. -/
def space_separated_deserialize (s : Str) : Except ScopeError (List Scope) :=
  (s.splitOn ' ').mapM Scope.fromStr

/-- Translation of the serde field attributes on `AuthorizationClaims.scopes`
(src/src/claims/authorization_claims.rs, lines 7-13): serialization always
renames the field to `scope`. -/
def authorizationClaimsWireFieldName : String := "scope"

/-- Translation of the serde field attributes on `AuthorizationClaims.scopes`
(src/src/claims/authorization_claims.rs, lines 7-13): deserialization accepts
the declared field name `scopes` and the alias `scope`. -/
def authorizationClaimsAcceptedFieldNames : List String := ["scopes", "scope"]

/-- Modelled from the spec: the `Audience` sum type belongs to the parent
module of `claims/`, which is absent from the sources (only the old snapshot
`claims.rs` with `aud: String` and the tests in
`claims/authorization_claims.rs`, which exercise the list shape, remain).
Per spec section 3 an audience is either a single identifier or an ordered
sequence of identifiers. -/
inductive Audience where
  | single (s : Str)
  | multiple (ss : List Str)

deriving instance DecidableEq for Audience

/-- Modelled from the spec: audience iteration flattens either shape to a
flat sequence of identifier strings (spec section 3); this is the
`into_iter` used by the authorization middleware. -/
def Audience.flatten : Audience → List Str
  | .single s => [s]
  | .multiple ss => ss

/-- Modelled from the spec: the JSON shapes the `aud` field may take on the
wire, a single string or a list of strings (spec sections 4.2 and 6). -/
inductive AudJson where
  | str (s : Str)
  | arr (ss : List Str)

/-- Modelled from the spec: audience deserialization accepts either a single
string or a list and normalizes internally to the `Audience` sum type (spec
section 4.2); the deserializer's own file is absent from the sources. -/
def Audience.deserialize : AudJson → Option Audience
  | .str s => some (.single s)
  | .arr ss => some (.multiple ss)

/-- Translation of `struct AuthorizationClaims`
(src/src/claims/authorization_claims.rs). -/
structure AuthorizationClaims where
  scopes : List Scope

deriving instance DecidableEq for AuthorizationClaims

/-- Translation of `struct Claims<Extension>` of the current claims module:
the field list follows the snapshot in src/src/claims.rs, lines 20-28, with
`aud` carrying the `Audience` representation that the middleware iterates
(the parent module of `claims/` defining that field's type is absent from
the sources; spec section 3). -/
structure Claims (Extension : Type) where
  iss : Str
  sub : Str
  aud : Audience
  iat : Nat
  exp : Nat
  extension : Extension

deriving instance DecidableEq for Claims

/-- Translation of `Claims::<AuthorizationClaims>::scopes`
(src/src/claims/authorization_claims.rs, lines 17-19). -/
def Claims.scopes (c : Claims AuthorizationClaims) : List Scope :=
  c.extension.scopes

/-- Translation of the loop body of `Claims::<AuthorizationClaims>::resources`
(src/src/claims/authorization_claims.rs, lines 21-33):
`entry(resource).and_modify(push action).or_insert(vec![action])`, with the
`HashMap` embedded as a lookup function. -/
def resourcesStep (m : Str → Option (List Str)) (scope : Scope) :
    Str → Option (List Str) :=
  fun r =>
    if r = scope.resource then some ((m scope.resource).getD [] ++ [scope.action])
    else m r

/-- Translation of `Claims::<AuthorizationClaims>::resources`
(src/src/claims/authorization_claims.rs, lines 21-33): fold the update over
the scopes in declaration order, starting from the empty map. -/
def Claims.resources (c : Claims AuthorizationClaims) : Str → Option (List Str) :=
  c.scopes.foldl resourcesStep (fun _ => none)

/-- Translation of the JWT algorithm header field as far as the verifier
inspects it: `Validation::new(Algorithm::RS256)` accepts RS256 only. -/
inductive Alg where
  | RS256
  | other

deriving instance DecidableEq for Alg

/-- Translation of the JWT header fields the pipeline reads: algorithm and
optional key id (spec section 3; `jsonwebtoken::Header`). -/
structure Header where
  alg : Alg
  kid : Option Str

deriving instance DecidableEq for Header

/-- Translation of `Token<Extension>`: header plus claims, produced only by
successful verification. The parent module of `token/` defining the struct
is absent from the sources; the shape follows spec section 3 and the old
snapshot src/src/token.rs, lines 63-98. -/
structure Token (Extension : Type) where
  header : Header
  claims : Claims Extension

deriving instance DecidableEq for Token

/-- Translation of `pub type AccessToken = Token<AuthorizationClaims>`
(src/src/token/access_token.rs). -/
abbrev AccessToken : Type := Token AuthorizationClaims

/-- Translation of `AccessToken::actions` (src/src/token/access_token.rs,
lines 20-22): `self.resources().get(resource).map(Clone::clone)`. -/
def Token.actions (t : AccessToken) (resource : Str) : Option (List Str) :=
  t.claims.resources resource

/-- Translation of `enum AuthorizationError`
(src/src/middleware/authorization_error.rs). -/
inductive AuthorizationError where
  | Unauthorized
  | UnauthorizedResource (resource : Str)
  | UnauthorizedAction (action : Str)

deriving instance DecidableEq for AuthorizationError

/-- Translation of `authorize` (src/src/middleware/authorize.rs, lines 3-18):
the `Authorized` extractor dereferences to `Option<AccessToken>`
(src/src/middleware/authorized.rs). -/
def authorize (auth : Option AccessToken) (resource requiredAction : Str) :
    Except AuthorizationError Unit :=
  match auth with
  | none => .error .Unauthorized
  | some token =>
    match token.actions resource with
    | none => .error (.UnauthorizedResource resource)
    | some actions =>
      match actions.find? (fun v => decide (v = requiredAction)) with
      | none => .error (.UnauthorizedAction requiredAction)
      | some _ => .ok ()

/-- Translation of `enum AuthorizationMiddlewareError`
(src/src/middleware/authorization_middleware.rs, lines 101-109); reason
messages are kept as literals. -/
inductive AuthorizationMiddlewareError where
  | NoToken
  | NoIssuer
  | InvalidClaims (msg : String)

deriving instance DecidableEq for AuthorizationMiddlewareError

/-- Translation of `require` (src/src/middleware/authorization_middleware.rs,
lines 88-99): succeed when the condition holds and otherwise return
`InvalidClaims` with the given message (the logging is a side effect with no
bearing on the result). -/
def require (condition : Bool) (message : String) :
    Except AuthorizationMiddlewareError Unit :=
  if condition then .ok () else .error (.InvalidClaims message)

/-- Translation of the claims-policy sequence of
`AuthorizationMiddleware::call`
(src/src/middleware/authorization_middleware.rs, lines 162-173): the four
`require` calls in source order, over the issuer url, the expected audience,
and the current timestamp. -/
def checkClaims (issuerUrl : Str) (expectedAudience : Str) (timestamp : Nat)
    (claims : Claims AuthorizationClaims) :
    Except AuthorizationMiddlewareError Unit :=
  match require (decide (claims.iss = issuerUrl)) ("Issuer does not match") with
  | .error e => .error e
  | .ok _ =>
    match require (claims.aud.flatten.any (fun x => decide (x = expectedAudience)))
        ("Audience does not match") with
    | .error e => .error e
    | .ok _ =>
      match require (decide (timestamp ≥ claims.iat))
          ("Token issued for invalid time") with
      | .error e => .error e
      | .ok _ => require (decide (timestamp ≤ claims.exp)) ("Token is expired")

/-- Error kinds raised by the `jsonwebtoken` crate that the decode pipeline
can surface (`jsonwebtoken::errors::ErrorKind`): wrong header algorithm,
failed RSA signature verification, and the expiry validation of the default
`Validation`. -/
inductive JwtErrorKind where
  | InvalidAlgorithm
  | InvalidSignature
  | ExpiredSignature

deriving instance DecidableEq for JwtErrorKind

/-- Translation of `enum EncodedTokenError` (src/src/encoded_token.rs,
lines 12-20). -/
inductive EncodedTokenError where
  | TokenError (e : JwtErrorKind)
  | NoJWKError
  | NoKID

deriving instance DecidableEq for EncodedTokenError

/-- Translation of a single JWK entry as far as the pipeline reads it: the
key id used by `JwkSet::find`. -/
structure Jwk where
  kid : Str

deriving instance DecidableEq for Jwk

/-- Translation of `jsonwebtoken::jwk::JwkSet::find`: the first key whose
key id equals the requested one. -/
def JwkSet.find (keys : List Jwk) (kid : Str) : Option Jwk :=
  keys.find? (fun k => decide (k.kid = kid))

/-- Abstract content of an encoded (not yet verified) token: the header and
claims that `decode_header` and `decode` recover from the wire string. The
base64/JSON surface syntax is not modelled. -/
structure EncodedJwt (Extension : Type) where
  header : Header
  claims : Claims Extension

/-- Translation of `EncodedToken::decode` (src/src/encoded_token.rs, lines
86-95): read the key id (`NoKID` when absent), resolve the key in the set
(`NoJWKError` when absent), then run `jsonwebtoken::decode` with
`Validation::new(Algorithm::RS256)`. The crate internals are modelled per
the jsonwebtoken documentation: the header algorithm must be RS256, the RSA
signature check is abstracted as the predicate `sigOk` on the resolved key,
and the default validation has `validate_exp = true` with a 60-second
leeway (`aud` and `iss` are `None`, so no audience or issuer check runs);
`now - 60` is the crate's u64 subtraction, saturating at zero. -/
def EncodedToken.decode {Extension : Type} (sigOk : Jwk → Bool) (now : Nat)
    (jwt : EncodedJwt Extension) (jwkSet : List Jwk) :
    Except EncodedTokenError (Token Extension) :=
  match jwt.header.kid with
  | none => .error .NoKID
  | some kid =>
    match JwkSet.find jwkSet kid with
    | none => .error .NoJWKError
    | some jwk =>
      if jwt.header.alg ≠ .RS256 then .error (.TokenError .InvalidAlgorithm)
      else if ¬ sigOk jwk then .error (.TokenError .InvalidSignature)
      else if jwt.claims.exp < now - 60 then .error (.TokenError .ExpiredSignature)
      else .ok ⟨jwt.header, jwt.claims⟩

/-- Model of Rust `str::split` with a multi-character pattern, used by
`impl From<&str> for EncodedToken` on the pattern `"Bearer "`: scan left to
right, and at each position where the pattern is a prefix cut a segment and
skip the pattern. -/
def splitOnSub (pat : Str) : Str → List Str
  | [] => [[]]
  | c :: cs =>
    if h : pat ≠ [] ∧ pat <+: (c :: cs) then
      [] :: splitOnSub pat ((c :: cs).drop pat.length)
    else
      match splitOnSub pat cs with
      | [] => [[c]]
      | s :: t => (c :: s) :: t
termination_by s => s.length
decreasing_by
  · have hlen : pat.length ≤ (c :: cs).length := h.2.length_le
    have hpos : 0 < pat.length := List.length_pos.mpr h.1
    simp only [List.length_drop]
    omega
  · simp [Nat.lt_succ_self]

/-- Translation of `impl From<&str> for EncodedToken` (src/src/encoded_token.rs,
lines 28-37): split the header text on `"Bearer "` and take element 1 of the
result; Rust's out-of-bounds indexing panic is embedded as `none`. -/
def EncodedToken.fromStr (encoded : Str) : Option Str :=
  (splitOnSub (String.toList "Bearer ") encoded)[1]?

/-- Translation of `impl From<String> for EncodedToken`
(src/src/encoded_token.rs, lines 39-46): the string is stored unchanged. -/
def EncodedToken.fromString (encoded : Str) : Str :=
  encoded

theorem splitOn_colon_first (a rest : Str) (ha : ':' ∉ a) :
    (a ++ ':' :: rest).splitOn ':' = a :: rest.splitOn ':' := by
  simp only [List.splitOn]
  refine List.splitOnP_first _ a ?_ ':' (by simp) rest
  intro x hx
  simp only [beq_iff_eq]
  exact fun hxe => ha (hxe ▸ hx)

theorem splitOn_no_colon (r : Str) (hr : ':' ∉ r) : r.splitOn ':' = [r] := by
  simp only [List.splitOn]
  refine List.splitOnP_eq_single _ _ ?_
  intro x hx
  simp only [beq_iff_eq]
  exact fun hxe => hr (hxe ▸ hx)

/-- C3: for every valid Scope `s` (action and resource both non-empty and
colon-free), the serializer emits exactly `action:resource`, and the decoder
applied to that text returns `s` (round-trip law). -/
theorem scope_serialize_visitStr_roundtrip (s : Scope)
    (ha : s.action ≠ []) (hr : s.resource ≠ [])
    (hca : ':' ∉ s.action) (hcr : ':' ∉ s.resource) :
    Scope.serialize s = s.action ++ [':'] ++ s.resource ∧
    Scope.visitStr (Scope.serialize s) = .ok s := by
  obtain ⟨a, r⟩ := s
  refine ⟨rfl, ?_⟩
  have h1 : Scope.serialize ⟨a, r⟩ = a ++ ':' :: r := by
    simp [Scope.serialize]
  have hsplit : (Scope.serialize ⟨a, r⟩).splitOn ':' = [a, r] := by
    rw [h1, splitOn_colon_first _ _ hca, splitOn_no_colon _ hcr]
  simp only [Scope.visitStr, hsplit]
  rw [if_neg]
  · rfl
  · simp only [List.getD_cons_zero, List.getD_cons_succ, List.length_cons,
      List.length_nil, Nat.lt_one_iff, List.length_eq_zero]
    simp at ha hr ⊢
    exact ⟨ha, hr⟩

/-- Witness for C3 at the concrete scope `create:users`. -/
theorem scope_serialize_visitStr_roundtrip_witness :
    Scope.serialize ⟨String.toList "create", String.toList "users"⟩ =
        String.toList "create" ++ [':'] ++ String.toList "users" ∧
    Scope.visitStr
        (Scope.serialize ⟨String.toList "create", String.toList "users"⟩) =
      .ok ⟨String.toList "create", String.toList "users"⟩ :=
  scope_serialize_visitStr_roundtrip ⟨String.toList "create", String.toList "users"⟩
    (by decide) (by decide) (by decide) (by decide)

/-- C5 counterexample: the input `a:b:c`, whose segments carry an extra
colon, is not rejected by the decoder: it is silently truncated to the scope
`{action: a, resource: b}`, contradicting the claim that such inputs are
rejected explicitly. -/
theorem scope_visitStr_colon_input_not_rejected :
    Scope.visitStr (String.toList "a:b:c") = .ok ⟨['a'], ['b']⟩ ∧
    Scope.visitStr (String.toList "a:b:c") ≠
      .error (.InvalidScopeFormat (String.toList "a:b:c")) := by
  refine ⟨rfl, fun h => ?_⟩
  rw [show Scope.visitStr (String.toList "a:b:c") = .ok ⟨['a'], ['b']⟩ from rfl] at h
  exact Except.noConfusion h

/-- C5 (amended): single-scope decode fails with the invalid-format error
exactly when splitting on every colon yields fewer than two segments or an
empty first or second segment — in particular `decode("create")` fails —
while an input carrying additional colon-separated text beyond the first two
segments is silently truncated to those two segments rather than rejected. -/
theorem scope_visitStr_error_iff_and_truncation (v a b c : Str)
    (hca : ':' ∉ a) (hcb : ':' ∉ b) (ha : a ≠ []) (hb : b ≠ []) :
    (Scope.visitStr v = .error (.InvalidScopeFormat v) ↔
      ((v.splitOn ':').length < 2 ∨ (v.splitOn ':').getD 0 [] = [] ∨
        (v.splitOn ':').getD 1 [] = [])) ∧
    Scope.visitStr (String.toList "create") =
      .error (.InvalidScopeFormat (String.toList "create")) ∧
    Scope.visitStr (a ++ ':' :: b ++ ':' :: c) = .ok ⟨a, b⟩ := by
  have hiff : ((v.splitOn ':').length < 2 ∨
      ((v.splitOn ':').getD 0 []).length < 1 ∨
      ((v.splitOn ':').getD 1 []).length < 1) ↔
      ((v.splitOn ':').length < 2 ∨ (v.splitOn ':').getD 0 [] = [] ∨
        (v.splitOn ':').getD 1 [] = []) := by
    simp [Nat.lt_one_iff, List.length_eq_zero]
  refine ⟨?_, rfl, ?_⟩
  · simp only [Scope.visitStr]
    by_cases hcond : ((v.splitOn ':').length < 2 ∨
        ((v.splitOn ':').getD 0 []).length < 1 ∨
        ((v.splitOn ':').getD 1 []).length < 1)
    · rw [if_pos hcond]
      exact iff_of_true rfl (hiff.mp hcond)
    · rw [if_neg hcond]
      exact iff_of_false (fun h => Except.noConfusion h) (fun h => hcond (hiff.mpr h))
  · have hsplit : (a ++ ':' :: b ++ ':' :: c).splitOn ':' = a :: b :: c.splitOn ':' := by
      rw [List.append_assoc, List.cons_append]
      rw [splitOn_colon_first _ _ hca, splitOn_colon_first _ _ hcb]
    simp only [Scope.visitStr, hsplit]
    rw [if_neg]
    · rfl
    · simp only [List.getD_cons_zero, List.getD_cons_succ, List.length_cons,
        Nat.lt_one_iff, List.length_eq_zero]
      simp at ha hb ⊢
      exact ⟨ha, hb⟩

/-- Witness for the amended C5 at `v = "create"`, `a = "x"`, `b = "y"`,
`c = "z"`. -/
theorem scope_visitStr_error_iff_and_truncation_witness :
    (Scope.visitStr (String.toList "create") =
        .error (.InvalidScopeFormat (String.toList "create")) ↔
      (((String.toList "create").splitOn ':').length < 2 ∨
        ((String.toList "create").splitOn ':').getD 0 [] = [] ∨
        ((String.toList "create").splitOn ':').getD 1 [] = [])) ∧
    Scope.visitStr (String.toList "create") =
      .error (.InvalidScopeFormat (String.toList "create")) ∧
    Scope.visitStr (['x'] ++ ':' :: ['y'] ++ ':' :: ['z']) = .ok ⟨['x'], ['y']⟩ :=
  scope_visitStr_error_iff_and_truncation (String.toList "create") ['x'] ['y'] ['z']
    (by decide) (by decide) (by decide) (by decide)

/-- C4: the audience field deserializes both from a single JSON string and
from a JSON list of strings, and both shapes flatten to the same one-element
sequence under audience iteration. -/
theorem audience_deserialize_both_shapes (a : Str) :
    Audience.deserialize (.str a) = some (.single a) ∧
    Audience.deserialize (.arr [a]) = some (.multiple [a]) ∧
    (Audience.single a).flatten = [a] ∧
    (Audience.multiple [a]).flatten = [a] :=
  ⟨rfl, rfl, rfl, rfl⟩

/-- C8: serialization always writes the scopes under the wire field name
`scope` as the space-joined textual encoding, deserialization accepts that
wire field name, and the scope list `[{create,user},{read,user}]`
round-trips through the wire format unchanged. -/
theorem scopes_wire_field_and_roundtrip :
    authorizationClaimsWireFieldName = "scope" ∧
    "scope" ∈ authorizationClaimsAcceptedFieldNames ∧
    space_separated_serialize
        [⟨String.toList "create", String.toList "user"⟩,
          ⟨String.toList "read", String.toList "user"⟩] =
      String.toList "create:user read:user" ∧
    space_separated_deserialize (String.toList "create:user read:user") =
      .ok [⟨String.toList "create", String.toList "user"⟩,
        ⟨String.toList "read", String.toList "user"⟩] := by
  refine ⟨rfl, by simp [authorizationClaimsAcceptedFieldNames], rfl, rfl⟩

theorem resources_foldl (scopes : List Scope) (m : Str → Option (List Str)) (r : Str) :
    (scopes.foldl resourcesStep m) r =
      if scopes.filter (fun s => decide (s.resource = r)) = [] then m r
      else some ((m r).getD [] ++
        (scopes.filter (fun s => decide (s.resource = r))).map Scope.action) := by
  induction scopes generalizing m with
  | nil => simp
  | cons s rest ih =>
    rw [List.foldl_cons, ih (resourcesStep m s), List.filter_cons]
    by_cases h : s.resource = r
    · have hstep : resourcesStep m s r = some ((m r).getD [] ++ [s.action]) := by
        simp [resourcesStep, h]
      by_cases hrest : rest.filter (fun s => decide (s.resource = r)) = []
      · simp [h, hrest, hstep]
      · simp [h, hrest, hstep, List.append_assoc]
    · have hstep : resourcesStep m s r = m r := by
        simp only [resourcesStep]
        exact if_neg (fun hh => h hh.symm)
      simp [h, hstep]

/-- C7: the resource index maps each resource named by some scope to the
list of that resource's actions in first-occurrence declaration order with
duplicates retained, contains no key for any other resource, and
`actions(token, resource)` is `none` exactly when no scope of the token
names the resource. -/
theorem token_actions_characterization (t : AccessToken) (r : Str) :
    t.actions r =
      (if t.claims.scopes.filter (fun s => decide (s.resource = r)) = [] then none
       else some
        ((t.claims.scopes.filter (fun s => decide (s.resource = r))).map Scope.action)) ∧
    (t.actions r = none ↔ ∀ s ∈ t.claims.scopes, s.resource ≠ r) := by
  have h1 : t.actions r =
      (if t.claims.scopes.filter (fun s => decide (s.resource = r)) = [] then none
       else some
        ((t.claims.scopes.filter (fun s => decide (s.resource = r))).map Scope.action)) := by
    have h := resources_foldl t.claims.scopes (fun _ => none) r
    simp only [Token.actions, Claims.resources]
    rw [h]
    split
    · rfl
    · simp
  refine ⟨h1, ?_⟩
  rw [h1]
  by_cases hf : t.claims.scopes.filter (fun s => decide (s.resource = r)) = []
  · rw [if_pos hf]
    simp only [List.filter_eq_nil_iff, decide_eq_true_eq] at hf
    exact iff_of_true rfl hf
  · rw [if_neg hf]
    refine iff_of_false (fun h => Option.noConfusion h) (fun hall => hf ?_)
    simp only [List.filter_eq_nil_iff, decide_eq_true_eq]
    exact hall

/-- C1: authorize fails with `Unauthorized` exactly when no token is
present, with `UnauthorizedResource(resource)` exactly when a token is
present but its resource index has no entry for the resource, with
`UnauthorizedAction(required_action)` exactly when the entry exists but its
action list lacks the required action under exact string equality, and
succeeds otherwise; the three error kinds are pairwise distinct. -/
theorem authorize_characterization (auth : Option AccessToken) (r a : Str) :
    (authorize auth r a = .error .Unauthorized ↔ auth = none) ∧
    (authorize auth r a = .error (.UnauthorizedResource r) ↔
      ∃ t, auth = some t ∧ t.actions r = none) ∧
    (authorize auth r a = .error (.UnauthorizedAction a) ↔
      ∃ t acts, auth = some t ∧ t.actions r = some acts ∧ a ∉ acts) ∧
    (authorize auth r a = .ok () ↔
      ∃ t acts, auth = some t ∧ t.actions r = some acts ∧ a ∈ acts) ∧
    (AuthorizationError.Unauthorized ≠ .UnauthorizedResource r ∧
      AuthorizationError.Unauthorized ≠ .UnauthorizedAction a ∧
      AuthorizationError.UnauthorizedResource r ≠ .UnauthorizedAction a) := by
  refine ⟨?_, ?_, ?_, ?_, by simp, by simp, by simp⟩ <;> cases auth with
  | none => simp [authorize]
  | some t =>
    cases hact : t.actions r with
    | none => simp [authorize, hact]
    | some acts =>
      cases hfind : acts.find? (fun v => decide (v = a)) with
      | none =>
        have hmem : a ∉ acts := by
          intro hmem
          have h := List.find?_eq_none.mp hfind a hmem
          simp at h
        simp [authorize, hact, hfind, hmem]
      | some v =>
        have hv : v = a := by
          have h := List.find?_some hfind
          simpa using h
        have hmem : a ∈ acts := hv ▸ List.mem_of_find?_eq_some hfind
        simp [authorize, hact, hfind, hmem]

/-- C6: the claims policy check succeeds exactly when the issuer matches,
the expected audience is a member of the flattened audience, and the current
time lies in the closed interval `[iat, exp]` (so the boundary instants
`now = iat` and `now = exp` pass); each of the four predicates, when it is
the first to fail, yields its own `InvalidClaims` reason, the not-yet-valid
predicate failing exactly when `now < iat` and the expired predicate exactly
when `now > exp`; the four reason strings are pairwise distinct. -/
theorem checkClaims_characterization (issuerUrl expectedAudience : Str)
    (ts : Nat) (c : Claims AuthorizationClaims) :
    (checkClaims issuerUrl expectedAudience ts c = .ok () ↔
      (c.iss = issuerUrl ∧ expectedAudience ∈ c.aud.flatten ∧
        c.iat ≤ ts ∧ ts ≤ c.exp)) ∧
    (checkClaims issuerUrl expectedAudience ts c =
        .error (.InvalidClaims ("Issuer does not match")) ↔
      c.iss ≠ issuerUrl) ∧
    (checkClaims issuerUrl expectedAudience ts c =
        .error (.InvalidClaims ("Audience does not match")) ↔
      (c.iss = issuerUrl ∧ expectedAudience ∉ c.aud.flatten)) ∧
    (checkClaims issuerUrl expectedAudience ts c =
        .error (.InvalidClaims ("Token issued for invalid time")) ↔
      (c.iss = issuerUrl ∧ expectedAudience ∈ c.aud.flatten ∧ ts < c.iat)) ∧
    (checkClaims issuerUrl expectedAudience ts c =
        .error (.InvalidClaims ("Token is expired")) ↔
      (c.iss = issuerUrl ∧ expectedAudience ∈ c.aud.flatten ∧
        c.iat ≤ ts ∧ c.exp < ts)) ∧
    (("Issuer does not match" : String) ≠ "Audience does not match" ∧
      ("Issuer does not match" : String) ≠ "Token issued for invalid time" ∧
      ("Issuer does not match" : String) ≠ "Token is expired" ∧
      ("Audience does not match" : String) ≠ "Token issued for invalid time" ∧
      ("Audience does not match" : String) ≠ "Token is expired" ∧
      ("Token issued for invalid time" : String) ≠ "Token is expired") := by
  refine ⟨?_, ?_, ?_, ?_, ?_, by decide⟩ <;>
    by_cases h1 : c.iss = issuerUrl <;>
      by_cases h2 : expectedAudience ∈ c.aud.flatten <;>
        by_cases h3 : c.iat ≤ ts <;>
          by_cases h4 : ts ≤ c.exp <;>
            simp [checkClaims, require, h1, h2, h3, h4] <;>
              omega

/-- C2 counterexample: a well-signed RS256 token whose key resolves and
whose `exp` (0) lies in the past at verification time (now = 1000) does not
decode: the default `jsonwebtoken` validation rejects it as expired, so the
verification pipeline does perform an expiry check, contrary to the claim
that only the separate policy step checks expiry. -/
theorem decode_rejects_expired_token :
    EncodedToken.decode (fun _ => true) 1000
        (⟨⟨.RS256, some ['k']⟩, ⟨['i'], ['s'], .single ['a'], 0, 0, ⟨[]⟩⟩⟩ :
          EncodedJwt AuthorizationClaims)
        [⟨['k']⟩] =
      .error (.TokenError .ExpiredSignature) ∧
    (0 : Nat) < 1000 :=
  ⟨rfl, by decide⟩

/-- C2 (amended): for a well-signed RS256 token whose key id resolves in the
key set, the decode pipeline performs no issuer or audience check but does
enforce the default expiry validation of `jsonwebtoken` with its 60-second
leeway: decode fails with `ExpiredSignature` when `exp + 60 < now` and
succeeds otherwise; a token whose `exp` is in the past therefore passes
decode only within the leeway, and the separate policy check's expiry
predicate still fails for it. -/
theorem decode_expiry_validation {Extension : Type} (sigOk : Jwk → Bool)
    (now : Nat) (jwt : EncodedJwt Extension) (jwkSet : List Jwk) (kid : Str)
    (jwk : Jwk) (hkid : jwt.header.kid = some kid)
    (hfind : JwkSet.find jwkSet kid = some jwk)
    (halg : jwt.header.alg = .RS256) (hsig : sigOk jwk = true) :
    (jwt.claims.exp + 60 < now →
      EncodedToken.decode sigOk now jwt jwkSet =
        .error (.TokenError .ExpiredSignature)) ∧
    (now ≤ jwt.claims.exp + 60 →
      EncodedToken.decode sigOk now jwt jwkSet = .ok ⟨jwt.header, jwt.claims⟩) ∧
    (jwt.claims.exp < now →
      require (decide (now ≤ jwt.claims.exp)) ("Token is expired") =
        .error (.InvalidClaims ("Token is expired"))) := by
  have hred : EncodedToken.decode sigOk now jwt jwkSet =
      if jwt.claims.exp < now - 60 then .error (.TokenError .ExpiredSignature)
      else .ok ⟨jwt.header, jwt.claims⟩ := by
    simp [EncodedToken.decode, hkid, hfind, halg, hsig]
  refine ⟨?_, ?_, ?_⟩
  · intro h
    rw [hred, if_pos (by omega)]
  · intro h
    rw [hred, if_neg (by omega)]
  · intro h
    have hd : decide (now ≤ jwt.claims.exp) = false := decide_eq_false (by omega)
    rw [require, hd]
    rfl

/-- Witness for the amended C2: a token with `exp = 970` checked at
`now = 1000` is expired by less than the 60-second leeway, so it decodes
successfully while the policy expiry predicate fails for it. -/
theorem decode_expiry_validation_witness :
    ((970 : Nat) + 60 < 1000 →
      EncodedToken.decode (fun _ => true) 1000
          (⟨⟨.RS256, some ['k']⟩, ⟨['i'], ['s'], .single ['a'], 0, 970, ⟨[]⟩⟩⟩ :
            EncodedJwt AuthorizationClaims)
          [⟨['k']⟩] =
        .error (.TokenError .ExpiredSignature)) ∧
    ((1000 : Nat) ≤ 970 + 60 →
      EncodedToken.decode (fun _ => true) 1000
          (⟨⟨.RS256, some ['k']⟩, ⟨['i'], ['s'], .single ['a'], 0, 970, ⟨[]⟩⟩⟩ :
            EncodedJwt AuthorizationClaims)
          [⟨['k']⟩] =
        .ok ⟨⟨.RS256, some ['k']⟩, ⟨['i'], ['s'], .single ['a'], 0, 970, ⟨[]⟩⟩⟩) ∧
    ((970 : Nat) < 1000 →
      require (decide ((1000 : Nat) ≤ 970)) ("Token is expired") =
        .error (.InvalidClaims ("Token is expired"))) :=
  decode_expiry_validation (fun _ => true)
    1000
    (⟨⟨.RS256, some ['k']⟩, ⟨['i'], ['s'], .single ['a'], 0, 970, ⟨[]⟩⟩⟩ :
      EncodedJwt AuthorizationClaims)
    [⟨['k']⟩] ['k'] ⟨['k']⟩ rfl rfl rfl rfl

theorem splitOnSub_not_infix (pat s : Str) (h : ¬ pat <:+: s) :
    splitOnSub pat s = [s] := by
  induction s with
  | nil => simp [splitOnSub]
  | cons c cs ih =>
    have hpre : ¬ pat <+: (c :: cs) := fun hh => h hh.isInfix
    have hcs : ¬ pat <:+: cs := fun hh => h (List.infix_cons hh)
    rw [splitOnSub, dif_neg (fun hh => hpre hh.2), ih hcs]

theorem splitOnSub_append_left (pat rest : Str) (hp : pat ≠ []) :
    splitOnSub pat (pat ++ rest) = [] :: splitOnSub pat rest := by
  obtain ⟨p, ps, rfl⟩ : ∃ p ps, pat = p :: ps := by
    cases pat with
    | nil => exact absurd rfl hp
    | cons p ps => exact ⟨p, ps, rfl⟩
  show splitOnSub (p :: ps) (p :: (ps ++ rest)) = _
  rw [splitOnSub, dif_pos ⟨List.cons_ne_nil p ps, List.prefix_append (p :: ps) rest⟩]
  show [] :: splitOnSub (p :: ps) (((p :: ps) ++ rest).drop (p :: ps).length) = _
  rw [List.drop_left]

/-- C9 counterexample: constructing an `EncodedToken` from a borrowed header
string that carries no `Bearer ` scheme prefix does not succeed: the
conversion indexes element 1 of the split, which does not exist, so the
program panics (embedded as `none`), contrary to the claim that construction
succeeds whether or not the prefix is present. -/
theorem fromStr_without_bearer_panics :
    EncodedToken.fromStr (String.toList "abc.def.ghi") = none := by
  rw [EncodedToken.fromStr,
    splitOnSub_not_infix _ _ (by decide)]
  rfl

/-- C9 (amended): constructing an `EncodedToken` from a borrowed string
succeeds only when the text contains the `Bearer ` marker: when the string
is the marker followed by marker-free text, that following text is kept;
when the marker is absent entirely, the out-of-bounds indexing panics. -/
theorem fromStr_bearer_required (s rest : Str)
    (hs : ¬ (String.toList "Bearer ") <:+: s)
    (hrest : ¬ (String.toList "Bearer ") <:+: rest) :
    EncodedToken.fromStr s = none ∧
    EncodedToken.fromStr ((String.toList "Bearer ") ++ rest) = some rest := by
  constructor
  · rw [EncodedToken.fromStr, splitOnSub_not_infix _ _ hs]
    rfl
  · rw [EncodedToken.fromStr, splitOnSub_append_left _ _ (by decide),
      splitOnSub_not_infix _ _ hrest]
    rfl

/-- Witness for the amended C9 at the prefix-free strings `abc` and `xyz`. -/
theorem fromStr_bearer_required_witness :
    EncodedToken.fromStr (String.toList "abc") = none ∧
    EncodedToken.fromStr ((String.toList "Bearer ") ++ (String.toList "xyz")) =
      some (String.toList "xyz") :=
  fromStr_bearer_required (String.toList "abc") (String.toList "xyz")
    (by decide) (by decide)

/-- C10: for the same `Bearer `-prefixed header text, the owned-string
constructor stores the text unchanged while the borrowed-string constructor
keeps only the text following the marker, so the two constructors produce
different encoded contents. -/
theorem fromString_fromStr_differ (rest : Str)
    (hrest : ¬ (String.toList "Bearer ") <:+: rest) :
    EncodedToken.fromString ((String.toList "Bearer ") ++ rest) =
      (String.toList "Bearer ") ++ rest ∧
    EncodedToken.fromStr ((String.toList "Bearer ") ++ rest) = some rest ∧
    (String.toList "Bearer ") ++ rest ≠ rest := by
  refine ⟨rfl, ?_, ?_⟩
  · rw [EncodedToken.fromStr, splitOnSub_append_left _ _ (by decide),
      splitOnSub_not_infix _ _ hrest]
    rfl
  · intro h
    have hlen := congrArg List.length h
    rw [List.length_append] at hlen
    have h7 : (String.toList "Bearer ").length = 7 := rfl
    omega

/-- Witness for C10 at the marker-free token text `abc.def`. -/
theorem fromString_fromStr_differ_witness :
    EncodedToken.fromString ((String.toList "Bearer ") ++ (String.toList "abc.def")) =
      (String.toList "Bearer ") ++ (String.toList "abc.def") ∧
    EncodedToken.fromStr ((String.toList "Bearer ") ++ (String.toList "abc.def")) =
      some (String.toList "abc.def") ∧
    (String.toList "Bearer ") ++ (String.toList "abc.def") ≠
      (String.toList "abc.def") :=
  fromString_fromStr_differ (String.toList "abc.def") (by decide)

end LushusJwt
